import Mathlib

/-!
Verification of the aggregation and grouping engine of `rate_mate.py`.

The engine is embedded shallowly: pandas tables become lists of row
structures whose dynamic columns are total functions from column name to
value, the `unit_counts` dict becomes a map into `Option` values,
and every numeric value is a rational number.  Each definition below is a
direct translation of the corresponding Python function.
-/

namespace RateMate

/-- `RATE_SUFFIX` constant of the source: suffix of consumption-rate columns. -/
def RATE_SUFFIX : String := "_rate"

/-- `CAP_SUFFIX` constant of the source: suffix of capacity columns. -/
def CAP_SUFFIX : String := "_cap"

/-- One row of the consumption table: `unit_type`, `action`, and the rate
columns, modelled as a total function from column name to value. -/
structure ConsRow where
  unit_type : String
  action : String
  rates : String → ℚ

/-- One row of the capacity table: `unit_type` and the capacity columns. -/
structure CapRow where
  unit_type : String
  caps : String → ℚ

/-- The `unit_counts` dict: `none` models a unit type absent from the dict. -/
abbrev UnitCounts := String → Option ℤ

/-- `df["unit_type"].map(unit_counts).fillna(0)`: a missing unit type
resolves to count 0. -/
def countOf (uc : UnitCounts) (u : String) : ℤ := (uc u).getD 0

/-- The consumption rows kept by `compute_totals`:
`cons_df[cons_df["action"] == action]`. -/
def req_rows (cons : List ConsRow) (action : String) : List ConsRow :=
  cons.filter (fun r => r.action == action)

/-- `total_req` of `compute_totals`: each selected rate value is scaled by the
row's resolved count and the scaled column is summed.  The source builds the
scaled detail frame first and then sums the column; the composition is the
map-then-sum below. -/
def total_req (cons : List ConsRow) (action : String) (uc : UnitCounts)
    (col : String) : ℚ :=
  ((req_rows cons action).map
    (fun r => r.rates col * (countOf uc r.unit_type : ℚ))).sum

/-- `total_cap` of `compute_totals`: the full capacity table (no action
filter), each selected capacity value scaled by the resolved count, summed. -/
def total_cap (capT : List CapRow) (uc : UnitCounts) (col : String) : ℚ :=
  (capT.map (fun r => r.caps col * (countOf uc r.unit_type : ℚ))).sum

/-- Python's `col.split(sep)` for a one-character separator: splits at every
occurrence, keeping empty segments. -/
def splitChar (sep : Char) : List Char → List (List Char)
  | [] => [[]]
  | c :: rest =>
    if c = sep then [] :: splitChar sep rest
    else
      match splitChar sep rest with
      | [] => [[c]]
      | t :: ts => (c :: t) :: ts

/-- Does `pat` occur as a contiguous subsequence? (helper for `in`). -/
def containsSeq (pat : List Char) : List Char → Bool
  | [] => pat.isEmpty
  | c :: rest => pat.isPrefixOf (c :: rest) || containsSeq pat rest

/-- Python's `sub in s` substring test. -/
def strContains (s sub : String) : Bool := containsSeq sub.data s.data

/-- Python's `s.startswith(pre)`: prefix test on the character sequence. -/
def strStarts (s pre : String) : Bool := pre.data.isPrefixOf s.data

/-- `group_prefix` of the source: the grouping rule for a subtype column.
`CL_*` columns keep their first two underscore-delimited tokens,
`Recovery_*` columns collapse to `Recovery`, anything else keeps its first
token. -/
def groupName (col : String) : String :=
  if strStarts col "CL_" then
    let parts := splitChar '_' col.data
    String.mk ((parts.headD []) ++ '_' :: ((parts.drop 1).headD []))
  else if strStarts col "Recovery_" then "Recovery"
  else String.mk ((splitChar '_' col.data).headD [])

/-- Python's `s.replace("_rate", "")` on the character list: scan left to
right, skip a `_rate` occurrence whole, otherwise copy one character.  All
non-overlapping occurrences are removed, not only a trailing suffix. -/
def stripRateAux : List Char → List Char
  | '_' :: 'r' :: 'a' :: 't' :: 'e' :: rest => stripRateAux rest
  | c :: rest => c :: stripRateAux rest
  | [] => []

/-- `rate.replace(RATE_SUFFIX, "")`: the base subtype name of a rate column. -/
def rateBase (rate : String) : String := String.mk (stripRateAux rate.data)

/-- Lexicographic comparison of strings by character value, as Python's `<`
on strings. -/
def listCharLt : List Char → List Char → Bool
  | [], [] => false
  | [], _ :: _ => true
  | _ :: _, [] => false
  | a :: as, b :: bs => if a < b then true else if b < a then false else listCharLt as bs

/-- Insert a string into a sorted list (ascending). -/
def insertSorted (s : String) : List String → List String
  | [] => [s]
  | t :: ts => if listCharLt s.data t.data then s :: t :: ts else t :: insertSorted s ts

/-- Python's `sorted` on strings (insertion sort; order matches for the
deduplicated lists it is applied to). -/
def sortStrings (l : List String) : List String := l.foldr insertSorted []

/-- One row of the grouped summary frame.  The `Deficit Subtypes` cell is kept
as the list of base names; the source joins it with `", "` (or `"-"` when
empty) only for display. -/
structure GroupRow where
  group : String
  requirement : ℚ
  capacity : ℚ
  surplus : ℚ
  deficit : List String
  bulkCap : Option ℚ
  bulkSurplus : Option ℚ
  wheeledCap : Option ℚ
  wheeledSurplus : Option ℚ
deriving DecidableEq

/-- The row `build_group_summary` builds for one group `grp`. -/
def mkGroupRow (tr tc : String → ℚ) (sr sc : List String) (grp : String) :
    GroupRow :=
  let grp_rates := sr.filter (fun c => groupName c == grp)
  let grp_caps := sc.filter (fun c => groupName c == grp)
  let req_sum : ℚ := if grp_rates.isEmpty then 0 else (grp_rates.map tr).sum
  let cap_sum : ℚ := if grp_caps.isEmpty then 0 else (grp_caps.map tc).sum
  let surplus := cap_sum - req_sum
  let bulk_keys := grp_caps.filter (fun c => strContains c "_bulk_cap")
  let wheel_keys := grp_caps.filter (fun c => strContains c "_wheeled_cap")
  let bulk_sum : Option ℚ :=
    if bulk_keys.isEmpty then none else some ((bulk_keys.map tc).sum)
  let wheel_sum : Option ℚ :=
    if wheel_keys.isEmpty then none else some ((wheel_keys.map tc).sum)
  let deficit : List String :=
    if surplus < 0 then
      grp_rates.filterMap (fun rate =>
        let base := rateBase rate
        let cap_matches := sc.filter (fun c => strStarts c base)
        if ((cap_matches.map tc).sum) < tr rate then some base else none)
    else []
  { group := grp
    requirement := req_sum
    capacity := cap_sum
    surplus := surplus
    deficit := deficit
    bulkCap := bulk_sum
    bulkSurplus := bulk_sum.map (fun b => b - req_sum)
    wheeledCap := wheel_sum
    wheeledSurplus := wheel_sum.map (fun w => w - req_sum) }

/-- `build_group_summary` of the source: one row per group, groups being the
sorted set of group names of the selected rate and capacity columns. -/
def build_group_summary (tr tc : String → ℚ) (sr sc : List String) :
    List GroupRow :=
  (sortStrings (((sr ++ sc).map groupName).dedup)).map (mkGroupRow tr tc sr sc)

/-- One row of the detailed subtype summary. -/
structure CompRow where
  subtype : String
  requirement : ℚ
  capacity : ℚ
  surplus : ℚ
deriving DecidableEq

/-- The detail/comparison builder (`comp_rows` of the source): one flat row
per selected rate column. -/
def comp_rows (tr tc : String → ℚ)
    (selected_rates selected_caps : List String) : List CompRow :=
  selected_rates.map (fun rate =>
    let base := rateBase rate
    let caps := selected_caps.filter (fun c => strStarts c base)
    let cap_sum := (caps.map tc).sum
    let req_val := tr rate
    { subtype := base
      requirement := req_val
      capacity := cap_sum
      surplus := cap_sum - req_val })

/-- Python's `int(x)`: truncation toward zero. -/
def ratTrunc (q : ℚ) : ℤ := if q < 0 then ⌈q⌉ else ⌊q⌋

/-- Insert a comma after every three characters of a reversed digit list. -/
def commaRev : List Char → List Char
  | [] => []
  | [a] => [a]
  | [a, b] => [a, b]
  | [a, b, c] => [a, b, c]
  | a :: b :: c :: d :: rest => a :: b :: c :: ',' :: commaRev (d :: rest)

/-- Python's `f"{n:,}"` for a natural number: decimal digits with thousands
separators. -/
def commafy (n : ℕ) : String :=
  String.mk ((commaRev (Nat.toDigits 10 n).reverse).reverse)

/-- `fmt_parenthesis` of the source: `NaN`/missing renders as a dash, other
values are truncated toward zero and rendered with thousands separators,
negatives as their absolute value wrapped in parentheses. -/
def fmt_parenthesis (x : Option ℚ) : String :=
  match x with
  | none => "-"
  | some q =>
    let i := ratTrunc q
    if i < 0 then "(" ++ commafy i.natAbs ++ ")" else commafy i.toNat

/-- Pointwise sum of two unit-count dicts: keys are united, values of common
keys are added. -/
def ucAdd (c1 c2 : UnitCounts) : UnitCounts := fun u =>
  match c1 u, c2 u with
  | none, b => b
  | some a, none => some a
  | some a, some b => some (a + b)

/-- Specification-side restatement of the total requirement, following the
spec's words (§4.1): a sum over all consumption rows in which a row of
another action contributes zero, the selected action's rows contribute the
rate scaled by the row's resolved count.  To be compared with `total_req`. -/
def total_req_ofSpec (cons : List ConsRow) (action : String) (uc : UnitCounts)
    (col : String) : ℚ :=
  (cons.map (fun r =>
    if r.action = action then r.rates col * (countOf uc r.unit_type : ℚ) else 0)).sum

/-- Specification-side restatement of the total capacity: a sum over the full
capacity table, each value scaled by the row's resolved count, with no action
filter.  To be compared with `total_cap`. -/
def total_cap_ofSpec (capT : List CapRow) (uc : UnitCounts) (col : String) : ℚ :=
  (capT.map (fun r => r.caps col * (countOf uc r.unit_type : ℚ))).sum

/-- The first underscore-delimited token of a character list (spec wording for
the group classifier's fallback rule). -/
def firstTokChars (l : List Char) : List Char := l.takeWhile (fun c => c != '_')

/-- The second underscore-delimited token of a character list (spec wording
for the `CL_` rule: what follows the first separator, up to the next one). -/
def secondTokChars (l : List Char) : List Char :=
  (l.drop ((firstTokChars l).length + 1)).takeWhile (fun c => c != '_')

/-- Python's `s.endswith(suf)`: suffix test on the character sequence. -/
def strEnds (s suf : String) : Bool := suf.data.isSuffixOf s.data

/-- A capacity column's base subtype name as the specification defines it
(§3: stripping the `_cap` suffix yields the base subtype name).  Used only to
state the claim that deficit matching compares base names. -/
def capBaseOfSpec (c : String) : String :=
  if strEnds c CAP_SUFFIX then String.mk (c.data.take (c.data.length - 4)) else c

/-- Totals for the deficit-matching counterexample: requirement 5 for
`Foo_ca_rate`, 100 for `Foo_x_rate`. -/
def cexTr : String → ℚ := fun c =>
  if c = "Foo_ca_rate" then 5 else if c = "Foo_x_rate" then 100 else 0

/-- Capacity totals for the counterexample: 10 for `Foo_cap`. -/
def cexTc : String → ℚ := fun c => if c = "Foo_cap" then 10 else 0

/-- Selected rate columns of the counterexample. -/
def cexSr : List String := ["Foo_ca_rate", "Foo_x_rate"]

/-- Selected capacity columns of the counterexample. -/
def cexSc : List String := ["Foo_cap"]

/-- Requirement totals of the running sample (the spec's §8 scenario plus a
`Javelin` column with no capacity). -/
def sampleTr : String → ℚ := fun c =>
  if c = "CL_III_rate" then 20 else if c = "Javelin_rate" then 7 else 0

/-- Capacity totals of the running sample. -/
def sampleTc : String → ℚ := fun c =>
  if c = "CL_III_bulk_cap" then 8 else if c = "CL_III_wheeled_cap" then 6 else 0

/-- Selected rate columns of the running sample. -/
def sampleSr : List String := ["CL_III_rate", "Javelin_rate"]

/-- Selected capacity columns of the running sample. -/
def sampleSc : List String := ["CL_III_bulk_cap", "CL_III_wheeled_cap"]

/-- The consumption table of the spec's §8 scenario. -/
def sampleCons : List ConsRow :=
  [{ unit_type := "InfantryCo", action := "Assault",
     rates := fun c => if c = "CL_III_rate" then 10 else 0 }]

/-- The capacity table of the spec's §8 scenario. -/
def sampleCap : List CapRow :=
  [{ unit_type := "InfantryCo",
     caps := fun c => if c = "CL_III_bulk_cap" then 4
       else if c = "CL_III_wheeled_cap" then 3 else 0 }]

/-- The unit counts of the spec's §8 scenario. -/
def sampleUc : UnitCounts := fun u => if u = "InfantryCo" then some 2 else none

/-! ### Helper lemmas -/

theorem if_isEmpty_sum (l : List String) (f : String → ℚ) :
    (if l.isEmpty then (0 : ℚ) else (l.map f).sum) = (l.map f).sum := by
  cases l <;> simp

theorem sum_map_add {α : Type} (l : List α) (f g : α → ℚ) :
    (l.map (fun a => f a + g a)).sum = (l.map f).sum + (l.map g).sum := by
  induction l with
  | nil => simp
  | cons a t ih => simp only [List.map_cons, List.sum_cons, ih]; ring

theorem sum_map_filter {α : Type} (p : α → Bool) (f : α → ℚ) (l : List α) :
    ((l.filter p).map f).sum = (l.map (fun a => if p a then f a else 0)).sum := by
  induction l with
  | nil => simp
  | cons a t ih =>
    by_cases h : p a <;> simp [List.filter_cons, h, ih]

theorem mem_build_summary {tr tc : String → ℚ} {sr sc : List String}
    {row : GroupRow} (h : row ∈ build_group_summary tr tc sr sc) :
    ∃ g, row = mkGroupRow tr tc sr sc g := by
  rcases List.mem_map.mp h with ⟨g, -, hg⟩
  exact ⟨g, hg.symm⟩

theorem mkGroupRow_group (tr tc : String → ℚ) (sr sc : List String)
    (g : String) : (mkGroupRow tr tc sr sc g).group = g := rfl

theorem mkGroupRow_requirement (tr tc : String → ℚ) (sr sc : List String)
    (g : String) : (mkGroupRow tr tc sr sc g).requirement =
      ((sr.filter (fun c => groupName c == g)).map tr).sum := by
  simp only [mkGroupRow]
  rw [if_isEmpty_sum]

theorem mkGroupRow_capacity (tr tc : String → ℚ) (sr sc : List String)
    (g : String) : (mkGroupRow tr tc sr sc g).capacity =
      ((sc.filter (fun c => groupName c == g)).map tc).sum := by
  simp only [mkGroupRow]
  rw [if_isEmpty_sum]

theorem mkGroupRow_surplus (tr tc : String → ℚ) (sr sc : List String)
    (g : String) : (mkGroupRow tr tc sr sc g).surplus =
      ((sc.filter (fun c => groupName c == g)).map tc).sum
        - ((sr.filter (fun c => groupName c == g)).map tr).sum := by
  simp only [mkGroupRow]
  rw [if_isEmpty_sum, if_isEmpty_sum]

theorem mkGroupRow_deficit (tr tc : String → ℚ) (sr sc : List String)
    (g : String) : (mkGroupRow tr tc sr sc g).deficit =
      if ((sc.filter (fun c => groupName c == g)).map tc).sum
          - ((sr.filter (fun c => groupName c == g)).map tr).sum < 0 then
        (sr.filter (fun c => groupName c == g)).filterMap (fun rate =>
          if ((sc.filter (fun c => strStarts c (rateBase rate))).map tc).sum
              < tr rate then some (rateBase rate) else none)
      else [] := by
  simp only [mkGroupRow]
  rw [if_isEmpty_sum, if_isEmpty_sum]

theorem mkGroupRow_bulkCap (tr tc : String → ℚ) (sr sc : List String)
    (g : String) : (mkGroupRow tr tc sr sc g).bulkCap =
      if ((sc.filter (fun c => groupName c == g)).filter
          (fun c => strContains c "_bulk_cap")).isEmpty then none
      else some ((((sc.filter (fun c => groupName c == g)).filter
          (fun c => strContains c "_bulk_cap")).map tc).sum) := by
  simp only [mkGroupRow]

theorem mkGroupRow_bulkSurplus (tr tc : String → ℚ) (sr sc : List String)
    (g : String) : (mkGroupRow tr tc sr sc g).bulkSurplus =
      ((mkGroupRow tr tc sr sc g).bulkCap).map
        (fun b => b - (mkGroupRow tr tc sr sc g).requirement) := by
  rw [mkGroupRow_bulkCap, mkGroupRow_requirement]
  simp only [mkGroupRow]
  rw [if_isEmpty_sum]

theorem mkGroupRow_wheeledCap (tr tc : String → ℚ) (sr sc : List String)
    (g : String) : (mkGroupRow tr tc sr sc g).wheeledCap =
      if ((sc.filter (fun c => groupName c == g)).filter
          (fun c => strContains c "_wheeled_cap")).isEmpty then none
      else some ((((sc.filter (fun c => groupName c == g)).filter
          (fun c => strContains c "_wheeled_cap")).map tc).sum) := by
  simp only [mkGroupRow]

theorem mkGroupRow_wheeledSurplus (tr tc : String → ℚ) (sr sc : List String)
    (g : String) : (mkGroupRow tr tc sr sc g).wheeledSurplus =
      ((mkGroupRow tr tc sr sc g).wheeledCap).map
        (fun b => b - (mkGroupRow tr tc sr sc g).requirement) := by
  rw [mkGroupRow_wheeledCap, mkGroupRow_requirement]
  simp only [mkGroupRow]
  rw [if_isEmpty_sum]

/-! ### Claim theorems -/

/-- C2: `compute_totals` includes in the total requirement only consumption
rows whose action equals the selected action (each selected rate value scaled
by that row's unit count, column-wise summed), resolves unit types absent
from `unit_counts` to count 0 rather than failing, and computes the total
capacity over the full capacity table with no action filtering. -/
theorem c2_compute_totals (cons : List ConsRow) (capT : List CapRow)
    (action : String) (uc : UnitCounts) (col : String) :
    total_req cons action uc col = total_req_ofSpec cons action uc col ∧
    total_cap capT uc col = total_cap_ofSpec capT uc col ∧
    ∀ u : String, uc u = none → countOf uc u = 0 := by
  refine ⟨?_, rfl, ?_⟩
  · rw [total_req, req_rows, total_req_ofSpec, sum_map_filter]
    simp only [beq_iff_eq]
  · intro u hu
    simp [countOf, hu]

/-- C2 witness: the spec's §8 scenario, with an unknown unit type resolving
to count 0. -/
theorem c2_compute_totals_witness :
    total_req sampleCons "Assault" sampleUc "CL_III_rate"
        = total_req_ofSpec sampleCons "Assault" sampleUc "CL_III_rate" ∧
    countOf sampleUc "ArmorBn" = 0 :=
  ⟨(c2_compute_totals sampleCons sampleCap "Assault" sampleUc "CL_III_rate").1,
   (c2_compute_totals sampleCons sampleCap "Assault" sampleUc "CL_III_rate").2.2
     "ArmorBn" (by decide)⟩

/-- C3: the per-column totals are linear in the unit counts: under the
pointwise sum of two unit-count dicts, each total requirement and each total
capacity is the sum of the totals under the two dicts. -/
theorem c3_totals_linearity (cons : List ConsRow) (capT : List CapRow)
    (action : String) (c1 c2 : UnitCounts) (col : String) :
    total_req cons action (ucAdd c1 c2) col
        = total_req cons action c1 col + total_req cons action c2 col ∧
    total_cap capT (ucAdd c1 c2) col
        = total_cap capT c1 col + total_cap capT c2 col := by
  have hcount : ∀ u, ((countOf (ucAdd c1 c2) u : ℤ) : ℚ)
      = (countOf c1 u : ℚ) + (countOf c2 u : ℚ) := by
    intro u
    unfold countOf ucAdd
    cases c1 u <;> cases c2 u <;> push_cast <;> simp
  constructor
  · rw [total_req, total_req, total_req]
    simp only [hcount, mul_add]
    exact sum_map_add _ _ _
  · rw [total_cap, total_cap, total_cap]
    simp only [hcount, mul_add]
    exact sum_map_add _ _ _

/-- C4: for every group row, the surplus equals exactly the capacity minus
the requirement, where the requirement is the sum of the total requirement
over the group's rate columns (0 when there are none) and the capacity the
sum of the total capacity over the group's capacity columns (0 when none). -/
theorem c4_surplus_consistency (tr tc : String → ℚ) (sr sc : List String)
    (row : GroupRow) (h : row ∈ build_group_summary tr tc sr sc) :
    row.surplus = row.capacity - row.requirement ∧
    row.requirement
        = ((sr.filter (fun c => groupName c == row.group)).map tr).sum ∧
    row.capacity
        = ((sc.filter (fun c => groupName c == row.group)).map tc).sum := by
  obtain ⟨g, rfl⟩ := mem_build_summary h
  rw [mkGroupRow_group]
  exact ⟨by rw [mkGroupRow_surplus, mkGroupRow_capacity, mkGroupRow_requirement],
    mkGroupRow_requirement tr tc sr sc g, mkGroupRow_capacity tr tc sr sc g⟩

/-- C4 witness: the `CL_III` row of the running sample. -/
theorem c4_surplus_consistency_witness :
    (mkGroupRow sampleTr sampleTc sampleSr sampleSc "CL_III").surplus
      = (mkGroupRow sampleTr sampleTc sampleSr sampleSc "CL_III").capacity
        - (mkGroupRow sampleTr sampleTc sampleSr sampleSc "CL_III").requirement := by
  have hg : sortStrings (((sampleSr ++ sampleSc).map groupName).dedup)
      = ["CL_III", "Javelin"] := by decide
  have hmem : mkGroupRow sampleTr sampleTc sampleSr sampleSc "CL_III"
      ∈ build_group_summary sampleTr sampleTc sampleSr sampleSc := by
    unfold build_group_summary
    rw [hg]
    simp
  exact (c4_surplus_consistency sampleTr sampleTc sampleSr sampleSc _ hmem).1

/-- C7: the detail/comparison builder emits exactly one row per selected rate
column, whose subtype is the rate column's base name, whose requirement is
that column's total requirement, whose capacity is the sum of the total
capacity over the selected capacity columns whose name starts with the base
name, and whose surplus is capacity minus requirement; selected capacity
columns matching no selected rate column produce no row. -/
theorem c7_comp_rows_contract (tr tc : String → ℚ) (sr sc : List String) :
    (comp_rows tr tc sr sc).length = sr.length ∧
    ∀ i : ℕ, (comp_rows tr tc sr sc)[i]? = (sr[i]?).map (fun rate =>
      { subtype := rateBase rate
        requirement := tr rate
        capacity := ((sc.filter (fun c => strStarts c (rateBase rate))).map tc).sum
        surplus := ((sc.filter (fun c => strStarts c (rateBase rate))).map tc).sum
          - tr rate : CompRow }) := by
  constructor
  · simp [comp_rows]
  · intro i
    simp [comp_rows, List.getElem?_map]

/-- C1 (amended): for every group row, a base subtype name appears in the
group's deficit-subtypes list if and only if the group's surplus is strictly
negative and some selected rate column of the group has that base name and a
total requirement strictly exceeding the summed totals of all selected
capacity columns whose full column name starts with that base name (the code
matches on the capacity column's name, not on its suffix-stripped base name);
when the surplus is non-negative the list is empty. -/
theorem c1_deficit_membership (tr tc : String → ℚ) (sr sc : List String)
    (row : GroupRow) (h : row ∈ build_group_summary tr tc sr sc)
    (base : String) :
    (base ∈ row.deficit ↔ row.surplus < 0 ∧ ∃ rate ∈ sr,
      groupName rate = row.group ∧ rateBase rate = base ∧
      ((sc.filter (fun c => strStarts c (rateBase rate))).map tc).sum < tr rate) ∧
    (0 ≤ row.surplus → row.deficit = []) := by
  obtain ⟨g, rfl⟩ := mem_build_summary h
  rw [mkGroupRow_group, mkGroupRow_deficit, mkGroupRow_surplus]
  constructor
  · split_ifs with hS
    · constructor
      · intro hmem
        refine ⟨hS, ?_⟩
        rcases List.mem_filterMap.mp hmem with ⟨rate, hrmem, hf⟩
        rcases List.mem_filter.mp hrmem with ⟨hrs, hrg⟩
        by_cases hlt : ((sc.filter (fun c => strStarts c (rateBase rate))).map
            tc).sum < tr rate
        · rw [if_pos hlt] at hf
          injection hf with hf
          exact ⟨rate, hrs, by rwa [beq_iff_eq] at hrg, hf, hlt⟩
        · rw [if_neg hlt] at hf
          exact absurd hf (by simp)
      · rintro ⟨-, rate, hrs, hrg, hbase, hlt⟩
        refine List.mem_filterMap.mpr ⟨rate,
          List.mem_filter.mpr ⟨hrs, by rwa [beq_iff_eq]⟩, ?_⟩
        rw [if_pos hlt, hbase]
    · constructor
      · intro hmem
        exact absurd hmem (List.not_mem_nil base)
      · rintro ⟨hS', -⟩
        exact absurd hS' hS
  · intro hge
    rw [if_neg (not_lt.mpr hge)]

/-- C1, as frozen, is false on the code: in the counterexample the group
`Foo` is in deficit, the rate column `Foo_ca_rate` (base `Foo_ca`) has
requirement 5 while the capacity columns whose *base name* starts with
`Foo_ca` sum to 0 (the only capacity column `Foo_cap` has base name `Foo`),
yet `Foo_ca` is not listed: the code matches on the full name `Foo_cap`,
which does start with `Foo_ca` and carries capacity 10 ≥ 5. -/
theorem c1_deficit_membership_counterexample :
    mkGroupRow cexTr cexTc cexSr cexSc "Foo"
        ∈ build_group_summary cexTr cexTc cexSr cexSc ∧
    (mkGroupRow cexTr cexTc cexSr cexSc "Foo").surplus < 0 ∧
    "Foo_ca_rate" ∈ cexSr ∧
    groupName "Foo_ca_rate" = (mkGroupRow cexTr cexTc cexSr cexSc "Foo").group ∧
    rateBase "Foo_ca_rate" = "Foo_ca" ∧
    ((cexSc.filter (fun c => strStarts (capBaseOfSpec c) "Foo_ca")).map
        cexTc).sum < cexTr "Foo_ca_rate" ∧
    "Foo_ca" ∉ (mkGroupRow cexTr cexTc cexSr cexSc "Foo").deficit := by
  have hg : sortStrings (((cexSr ++ cexSc).map groupName).dedup) = ["Foo"] := by
    decide
  have hmem : mkGroupRow cexTr cexTc cexSr cexSc "Foo"
      ∈ build_group_summary cexTr cexTc cexSr cexSc := by
    unfold build_group_summary
    rw [hg]
    simp
  have g1 : groupName "Foo_ca_rate" = "Foo" := by decide
  have g2 : groupName "Foo_x_rate" = "Foo" := by decide
  have g3 : groupName "Foo_cap" = "Foo" := by decide
  have r1 : rateBase "Foo_ca_rate" = "Foo_ca" := by decide
  have r2 : rateBase "Foo_x_rate" = "Foo_x" := by decide
  have s1 : strStarts "Foo_cap" "Foo_ca" = true := by decide
  have s2 : strStarts "Foo_cap" "Foo_x" = false := by decide
  have n1 : ¬ ("Foo_x_rate" : String) = "Foo_ca_rate" := by decide
  have hsur : (mkGroupRow cexTr cexTc cexSr cexSc "Foo").surplus = -95 := by
    simp [mkGroupRow, cexTr, cexTc, cexSr, cexSc, g1, g2, g3]
    norm_num
  have hdef : (mkGroupRow cexTr cexTc cexSr cexSc "Foo").deficit = ["Foo_x"] := by
    norm_num [mkGroupRow, cexTr, cexTc, cexSr, cexSc, g1, g2, g3, r1, r2, s1, s2,
      n1, List.filterMap_cons]
  have hfil : cexSc.filter (fun c => strStarts (capBaseOfSpec c) "Foo_ca") = [] := by
    decide
  refine ⟨hmem, ?_, by decide, ?_, r1, ?_, ?_⟩
  · rw [hsur]
    norm_num
  · rw [mkGroupRow_group]
    exact g1
  · rw [hfil]
    simp [cexTr]
  · rw [hdef]
    decide

/-- C1 witness (amended theorem applied): in the running sample the group
`Javelin` is in deficit and `Javelin` is listed as a deficit subtype. -/
theorem c1_deficit_membership_witness :
    "Javelin" ∈ (mkGroupRow sampleTr sampleTc sampleSr sampleSc "Javelin").deficit := by
  have hg : sortStrings (((sampleSr ++ sampleSc).map groupName).dedup)
      = ["CL_III", "Javelin"] := by decide
  have hmem : mkGroupRow sampleTr sampleTc sampleSr sampleSc "Javelin"
      ∈ build_group_summary sampleTr sampleTc sampleSr sampleSc := by
    unfold build_group_summary
    rw [hg]
    simp
  have h1 : sampleSr.filter (fun c => groupName c == "Javelin")
      = ["Javelin_rate"] := by decide
  have h2 : sampleSc.filter (fun c => groupName c == "Javelin") = [] := by decide
  have h3 : sampleSc.filter (fun c => strStarts c (rateBase "Javelin_rate"))
      = [] := by decide
  have n2 : ¬ ("Javelin_rate" : String) = "CL_III_rate" := by decide
  apply (c1_deficit_membership sampleTr sampleTc sampleSr sampleSc _ hmem
    "Javelin").1.mpr
  refine ⟨?_, "Javelin_rate", by decide, ?_, by decide, ?_⟩
  · rw [mkGroupRow_surplus, h1, h2]
    norm_num [sampleTr, n2]
  · rw [mkGroupRow_group]
    decide
  · rw [h3]
    norm_num [sampleTr, n2]

/-- C6: for every group row, the bulk-capacity fields are present if and only
if the group has a selected capacity column whose name contains `_bulk_cap`;
when present the bulk capacity is the sum of the total capacity over those
columns and the bulk surplus is that sum minus the group's full requirement;
when absent both fields are absent; and likewise for the wheeled fields with
`_wheeled_cap`. -/
theorem c6_bulk_wheeled_fields (tr tc : String → ℚ) (sr sc : List String)
    (row : GroupRow) (h : row ∈ build_group_summary tr tc sr sc) :
    (row.bulkCap.isSome = true ↔
      ∃ c ∈ sc, groupName c = row.group ∧ strContains c "_bulk_cap" = true) ∧
    (∀ b, row.bulkCap = some b →
      b = (((sc.filter (fun c => groupName c == row.group)).filter
          (fun c => strContains c "_bulk_cap")).map tc).sum ∧
      row.bulkSurplus = some (b - row.requirement)) ∧
    (row.bulkCap = none → row.bulkSurplus = none) ∧
    (row.wheeledCap.isSome = true ↔
      ∃ c ∈ sc, groupName c = row.group ∧ strContains c "_wheeled_cap" = true) ∧
    (∀ b, row.wheeledCap = some b →
      b = (((sc.filter (fun c => groupName c == row.group)).filter
          (fun c => strContains c "_wheeled_cap")).map tc).sum ∧
      row.wheeledSurplus = some (b - row.requirement)) ∧
    (row.wheeledCap = none → row.wheeledSurplus = none) := by
  obtain ⟨g, rfl⟩ := mem_build_summary h
  rw [mkGroupRow_group]
  have hiff : ∀ sub : String,
      (((sc.filter (fun c => groupName c == g)).filter
        (fun c => strContains c sub)).isEmpty = false) ↔
      ∃ c ∈ sc, groupName c = g ∧ strContains c sub = true := by
    intro sub
    rw [List.isEmpty_eq_false_iff_exists_mem]
    constructor
    · rintro ⟨c, hc⟩
      have h1 := List.mem_filter.mp hc
      have h2 := List.mem_filter.mp h1.1
      exact ⟨c, h2.1, by simpa using h2.2, h1.2⟩
    · rintro ⟨c, hcs, hg', hsub⟩
      exact ⟨c, List.mem_filter.mpr
        ⟨List.mem_filter.mpr ⟨hcs, by simpa using hg'⟩, hsub⟩⟩
  refine ⟨?_, ?_, ?_, ?_, ?_, ?_⟩
  · rw [mkGroupRow_bulkCap, ← hiff "_bulk_cap"]
    split_ifs with hE
    · exact iff_of_false (by simp) (by rw [hE]; simp)
    · exact iff_of_true (by simp) (by simpa using hE)
  · intro b hb
    rw [mkGroupRow_bulkCap] at hb
    by_cases hE : ((sc.filter (fun c => groupName c == g)).filter
        (fun c => strContains c "_bulk_cap")).isEmpty = true
    · rw [if_pos hE] at hb
      exact absurd hb (by simp)
    · rw [if_neg hE] at hb
      injection hb with hb
      refine ⟨hb.symm, ?_⟩
      rw [mkGroupRow_bulkSurplus, mkGroupRow_bulkCap, if_neg hE,
        Option.map_some', hb]
  · intro hnone
    rw [mkGroupRow_bulkCap] at hnone
    by_cases hE : ((sc.filter (fun c => groupName c == g)).filter
        (fun c => strContains c "_bulk_cap")).isEmpty = true
    · rw [mkGroupRow_bulkSurplus, mkGroupRow_bulkCap, if_pos hE]
      rfl
    · rw [if_neg hE] at hnone
      exact absurd hnone (by simp)
  · rw [mkGroupRow_wheeledCap, ← hiff "_wheeled_cap"]
    split_ifs with hE
    · exact iff_of_false (by simp) (by rw [hE]; simp)
    · exact iff_of_true (by simp) (by simpa using hE)
  · intro b hb
    rw [mkGroupRow_wheeledCap] at hb
    by_cases hE : ((sc.filter (fun c => groupName c == g)).filter
        (fun c => strContains c "_wheeled_cap")).isEmpty = true
    · rw [if_pos hE] at hb
      exact absurd hb (by simp)
    · rw [if_neg hE] at hb
      injection hb with hb
      refine ⟨hb.symm, ?_⟩
      rw [mkGroupRow_wheeledSurplus, mkGroupRow_wheeledCap, if_neg hE,
        Option.map_some', hb]
  · intro hnone
    rw [mkGroupRow_wheeledCap] at hnone
    by_cases hE : ((sc.filter (fun c => groupName c == g)).filter
        (fun c => strContains c "_wheeled_cap")).isEmpty = true
    · rw [mkGroupRow_wheeledSurplus, mkGroupRow_wheeledCap, if_pos hE]
      rfl
    · rw [if_neg hE] at hnone
      exact absurd hnone (by simp)

/-- C6 witness: in the running sample the `CL_III` group reports a bulk
capacity of 8 and a bulk surplus of 8 minus the group requirement. -/
theorem c6_bulk_wheeled_fields_witness :
    (mkGroupRow sampleTr sampleTc sampleSr sampleSc "CL_III").bulkSurplus
      = some (8 - (mkGroupRow sampleTr sampleTc sampleSr sampleSc
          "CL_III").requirement) := by
  have hg : sortStrings (((sampleSr ++ sampleSc).map groupName).dedup)
      = ["CL_III", "Javelin"] := by decide
  have hmem : mkGroupRow sampleTr sampleTc sampleSr sampleSc "CL_III"
      ∈ build_group_summary sampleTr sampleTc sampleSr sampleSc := by
    unfold build_group_summary
    rw [hg]
    simp
  have h1 : (sampleSc.filter (fun c => groupName c == "CL_III")).filter
      (fun c => strContains c "_bulk_cap") = ["CL_III_bulk_cap"] := by decide
  have hbc : (mkGroupRow sampleTr sampleTc sampleSr sampleSc "CL_III").bulkCap
      = some 8 := by
    rw [mkGroupRow_bulkCap, h1]
    simp [sampleTc]
  exact ((c6_bulk_wheeled_fields sampleTr sampleTc sampleSr sampleSc _
    hmem).2.1 8 hbc).2

/-- C8: with non-negative table values and non-negative unit counts, every
per-column total requirement and total capacity is non-negative, and so are
the Requirement, Capacity, Bulk Cap and Wheeled Cap values of every group
row; only the surplus fields can be negative. -/
theorem c8_totals_nonneg (cons : List ConsRow) (capT : List CapRow)
    (action : String) (uc : UnitCounts) (sr sc : List String)
    (hr : ∀ r ∈ cons, ∀ c, 0 ≤ r.rates c)
    (hc : ∀ r ∈ capT, ∀ c, 0 ≤ r.caps c)
    (hu : ∀ u n, uc u = some n → 0 ≤ n) :
    (∀ col, 0 ≤ total_req cons action uc col) ∧
    (∀ col, 0 ≤ total_cap capT uc col) ∧
    ∀ row ∈ build_group_summary (total_req cons action uc)
        (total_cap capT uc) sr sc,
      0 ≤ row.requirement ∧ 0 ≤ row.capacity ∧
      (∀ b, row.bulkCap = some b → 0 ≤ b) ∧
      (∀ b, row.wheeledCap = some b → 0 ≤ b) := by
  have hcount : ∀ u, (0 : ℚ) ≤ ((countOf uc u : ℤ) : ℚ) := by
    intro u
    rw [countOf]
    cases hx : uc u with
    | none => simp
    | some n =>
      have := hu u n hx
      simp only [Option.getD_some]
      exact_mod_cast this
  have hreq : ∀ col, 0 ≤ total_req cons action uc col := by
    intro col
    rw [total_req]
    apply List.sum_nonneg
    intro x hx
    rcases List.mem_map.mp hx with ⟨r, hrmem, rfl⟩
    rw [req_rows] at hrmem
    exact mul_nonneg (hr r (List.mem_filter.mp hrmem).1 col) (hcount r.unit_type)
  have hcap : ∀ col, 0 ≤ total_cap capT uc col := by
    intro col
    rw [total_cap]
    apply List.sum_nonneg
    intro x hx
    rcases List.mem_map.mp hx with ⟨r, hrmem, rfl⟩
    exact mul_nonneg (hc r hrmem col) (hcount r.unit_type)
  have hsumr : ∀ l : List String,
      0 ≤ (l.map (total_req cons action uc)).sum := by
    intro l
    apply List.sum_nonneg
    intro x hx
    rcases List.mem_map.mp hx with ⟨c, -, rfl⟩
    exact hreq c
  have hsumc : ∀ l : List String,
      0 ≤ (l.map (total_cap capT uc)).sum := by
    intro l
    apply List.sum_nonneg
    intro x hx
    rcases List.mem_map.mp hx with ⟨c, -, rfl⟩
    exact hcap c
  refine ⟨hreq, hcap, ?_⟩
  intro row hrow
  obtain ⟨g, rfl⟩ := mem_build_summary hrow
  refine ⟨?_, ?_, ?_, ?_⟩
  · rw [mkGroupRow_requirement]
    exact hsumr _
  · rw [mkGroupRow_capacity]
    exact hsumc _
  · intro b hb
    rw [mkGroupRow_bulkCap] at hb
    by_cases hE : ((sc.filter (fun c => groupName c == g)).filter
        (fun c => strContains c "_bulk_cap")).isEmpty = true
    · rw [if_pos hE] at hb
      exact absurd hb (by simp)
    · rw [if_neg hE] at hb
      injection hb with hb
      exact hb ▸ hsumc _
  · intro b hb
    rw [mkGroupRow_wheeledCap] at hb
    by_cases hE : ((sc.filter (fun c => groupName c == g)).filter
        (fun c => strContains c "_wheeled_cap")).isEmpty = true
    · rw [if_pos hE] at hb
      exact absurd hb (by simp)
    · rw [if_neg hE] at hb
      injection hb with hb
      exact hb ▸ hsumc _

/-- C8 witness: the spec's §8 scenario has non-negative inputs and the total
requirement of `CL_III_rate` is non-negative. -/
theorem c8_totals_nonneg_witness :
    0 ≤ total_req sampleCons "Assault" sampleUc "CL_III_rate" := by
  have h1 : ∀ r ∈ sampleCons, ∀ c, 0 ≤ r.rates c := by
    intro r hrm c
    simp only [sampleCons, List.mem_singleton] at hrm
    subst hrm
    dsimp only
    split_ifs <;> norm_num
  have h2 : ∀ r ∈ sampleCap, ∀ c, 0 ≤ r.caps c := by
    intro r hrm c
    simp only [sampleCap, List.mem_singleton] at hrm
    subst hrm
    dsimp only
    split_ifs <;> norm_num
  have h3 : ∀ u n, sampleUc u = some n → 0 ≤ n := by
    intro u n hun
    simp only [sampleUc] at hun
    split_ifs at hun
    injection hun with hun
    omega
  exact (c8_totals_nonneg sampleCons sampleCap "Assault" sampleUc sampleSr
    sampleSc h1 h2 h3).1 "CL_III_rate"

theorem splitChar_ne_nil (sep : Char) (l : List Char) :
    splitChar sep l ≠ [] := by
  induction l with
  | nil => simp [splitChar]
  | cons c rest ih =>
    by_cases h : c = sep
    · simp [splitChar, h]
    · simp only [splitChar, if_neg h]
      cases splitChar sep rest <;> simp

theorem splitChar_headD (sep : Char) (l : List Char) :
    (splitChar sep l).headD [] = l.takeWhile (fun c => c != sep) := by
  induction l with
  | nil => simp [splitChar]
  | cons c rest ih =>
    by_cases h : c = sep
    · subst h
      simp [splitChar, List.takeWhile_cons]
    · cases hs : splitChar sep rest with
      | nil => exact absurd hs (splitChar_ne_nil sep rest)
      | cons t ts =>
        have ih' : t = rest.takeWhile (fun c => c != sep) := by
          rw [hs] at ih
          simpa using ih
        simp only [splitChar, if_neg h]
        rw [hs]
        simp [List.takeWhile_cons, bne_iff_ne, h, ih']

theorem splitChar_second (sep : Char) (l : List Char) :
    ((splitChar sep l).drop 1).headD [] =
      (l.drop ((l.takeWhile (fun c => c != sep)).length + 1)).takeWhile
        (fun c => c != sep) := by
  induction l with
  | nil => simp [splitChar]
  | cons c rest ih =>
    by_cases h : c = sep
    · subst h
      have e1 : splitChar c (c :: rest) = [] :: splitChar c rest := by
        simp [splitChar]
      have e2 : (c :: rest).takeWhile (fun x => x != c) = [] := by
        simp [List.takeWhile_cons]
      rw [e1, e2]
      simp only [List.length_nil, Nat.zero_add, List.drop_succ_cons,
        List.drop_zero, List.drop_one, List.tail_cons]
      simpa using splitChar_headD c rest
    · cases hs : splitChar sep rest with
      | nil => exact absurd hs (splitChar_ne_nil sep rest)
      | cons t ts =>
        have ih' : ts.headD [] =
            (rest.drop ((rest.takeWhile (fun c => c != sep)).length
              + 1)).takeWhile (fun c => c != sep) := by
          rw [hs] at ih
          simpa using ih
        have e1 : splitChar sep (c :: rest) = (c :: t) :: ts := by
          simp [splitChar, h, hs]
        have e2 : (c :: rest).takeWhile (fun x => x != sep)
            = c :: rest.takeWhile (fun x => x != sep) := by
          simp [List.takeWhile_cons, bne_iff_ne, h]
        rw [e1, e2]
        simp only [List.length_cons, List.drop_succ_cons, List.drop_one,
          List.tail_cons]
        simpa using ih'

/-- C5: `group_prefix` applies its three rules in priority order: a column
starting with the two-token `CL_` pattern keeps its first two
underscore-delimited tokens verbatim; otherwise a column starting with
`Recovery_` maps to the literal `Recovery`; otherwise the group is the first
underscore-delimited token of the name.  (The code's first rule triggers on
any `CL_` prefix; the spec's `CL_<roman-or-letter>` describes the expected
data rather than a stricter test.) -/
theorem c5_group_classifier_rules (col : String) :
    (strStarts col "CL_" = true →
      groupName col
        = String.mk (firstTokChars col.data ++ '_' :: secondTokChars col.data)) ∧
    (strStarts col "CL_" = false → strStarts col "Recovery_" = true →
      groupName col = "Recovery") ∧
    (strStarts col "CL_" = false → strStarts col "Recovery_" = false →
      groupName col = String.mk (firstTokChars col.data)) := by
  refine ⟨?_, ?_, ?_⟩
  · intro h
    rw [groupName, if_pos h]
    rw [show firstTokChars col.data = (splitChar '_' col.data).headD [] from
      (splitChar_headD '_' col.data).symm]
    rw [show secondTokChars col.data
        = ((splitChar '_' col.data).drop 1).headD [] from by
      rw [splitChar_second]
      rfl]
  · intro h1 h2
    rw [groupName, if_neg (by simp [h1]), if_pos h2]
  · intro h1 h2
    rw [groupName, if_neg (by simp [h1]), if_neg (by simp [h2]),
      splitChar_headD]
    rfl

/-- C5 witness: the classifier applied at one column per rule. -/
theorem c5_group_classifier_rules_witness :
    groupName "CL_III_rate" = "CL_III"
      ∧ groupName "Recovery_heavy_cap" = "Recovery"
      ∧ groupName "Javelin_rate" = "Javelin" := by
  refine ⟨?_, ?_, ?_⟩
  · have h := (c5_group_classifier_rules "CL_III_rate").1 (by decide)
    rw [h]
    decide
  · exact (c5_group_classifier_rules "Recovery_heavy_cap").2.1
      (by decide) (by decide)
  · have h := (c5_group_classifier_rules "Javelin_rate").2.2
      (by decide) (by decide)
    rw [h]
    decide

/-- C9: `fmt_parenthesis` renders missing/NaN input as a dash, truncates any
other input toward zero (the absolute value of the truncation is the floor of
the absolute value), renders non-negative results with thousands separators
and negative results as their absolute value in parentheses; in particular
`-1234.9` renders as `(1,234)`, `5678` as `5,678` and NaN as `-`. -/
theorem c9_fmt_parenthesis_contract :
    fmt_parenthesis none = "-" ∧
    fmt_parenthesis (some (-(12349 : ℚ) / 10)) = "(1,234)" ∧
    fmt_parenthesis (some (5678 : ℚ)) = "5,678" ∧
    ∀ q : ℚ, |ratTrunc q| = ⌊|q|⌋ := by
  refine ⟨rfl, ?_, ?_, ?_⟩
  · have hc : ratTrunc (-(12349 : ℚ) / 10) = -1234 := by
      rw [ratTrunc, if_pos (by norm_num)]
      rw [Int.ceil_eq_iff]
      constructor <;> norm_num
    simp only [fmt_parenthesis, hc]
    decide
  · have hf : ratTrunc (5678 : ℚ) = 5678 := by
      rw [ratTrunc, if_neg (by norm_num)]
      norm_num
    simp only [fmt_parenthesis, hf]
    decide
  · intro q
    rw [ratTrunc]
    split_ifs with h
    · rw [abs_of_nonpos (Int.ceil_le.mpr (by exact_mod_cast h.le)), abs_of_neg h, Int.floor_neg]
    · rw [abs_of_nonneg (not_lt.mp h),
        abs_of_nonneg (Int.floor_nonneg.mpr (not_lt.mp h))]

theorem stripRateAux_copy (c : Char) (t : List Char)
    (h : ¬ ['_', 'r', 'a', 't', 'e'] <+: (c :: t)) :
    stripRateAux (c :: t) = c :: stripRateAux t := by
  rw [stripRateAux.eq_def]
  split
  · rename_i rest heq
    exact absurd ⟨rest, by rw [heq]; rfl⟩ h
  · rename_i c' rest' heq
    injection heq with h1 h2
    subst h1
    subst h2
    rfl
  · rename_i heq
    exact absurd heq (by simp)

theorem infix_of_cons {l L : List Char} {c : Char} (h : l <:+: L) :
    l <:+: (c :: L) := by
  obtain ⟨s, t2, hst⟩ := h
  exact ⟨c :: s, t2, by simp only [List.cons_append, List.append_assoc] at hst ⊢; rw [hst]⟩

theorem stripRateAux_strips_suffix (p : List Char)
    (h : ¬ ['_', 'r', 'a', 't', 'e'] <:+: (p ++ ['_', 'r', 'a', 't'])) :
    stripRateAux (p ++ ['_', 'r', 'a', 't', 'e']) = p := by
  induction p with
  | nil => rfl
  | cons c p' ih =>
    by_cases hp : ['_', 'r', 'a', 't', 'e']
        <+: (c :: (p' ++ ['_', 'r', 'a', 't', 'e']))
    · exfalso
      apply h
      have hY : (c :: p') ++ ['_', 'r', 'a', 't']
          = (c :: (p' ++ ['_', 'r', 'a', 't', 'e'])).take ((c :: p').length + 4) := by
        rw [show c :: (p' ++ ['_', 'r', 'a', 't', 'e'])
            = (c :: p') ++ ['_', 'r', 'a', 't', 'e'] from rfl]
        rw [List.take_append_eq_append_take]
        rw [List.take_of_length_le (by simp)]
        congr 1
        rw [show (c :: p').length + 4 - (c :: p').length = 4 from by omega]
        rfl
      obtain ⟨u, hu⟩ := hp
      have h2 := congrArg (List.take ((c :: p').length + 4)) hu
      rw [List.take_append_eq_append_take,
        List.take_of_length_le (by simp)] at h2
      rw [← hY] at h2
      exact ⟨[], u.take ((c :: p').length + 4
        - (['_', 'r', 'a', 't', 'e'] : List Char).length), by simpa using h2⟩
    · rw [show (c :: p') ++ ['_', 'r', 'a', 't', 'e']
          = c :: (p' ++ ['_', 'r', 'a', 't', 'e']) from rfl]
      rw [stripRateAux_copy _ _ hp]
      rw [ih (fun hin => h (infix_of_cons hin))]

/-- C10: in both the deficit detection and the detail builder, the base name
of a rate column is computed as `rate.replace(RATE_SUFFIX, "")`, which
removes every non-overlapping occurrence of `_rate` in the name.  Whenever
`_rate` occurs only as the final suffix (no occurrence inside the name with
its last character removed), the result coincides with suffix stripping; a
name with a non-final occurrence, such as `Water_rate_low_rate`, loses every
occurrence. -/
theorem c10_rate_base_replace_all :
    (∀ p : List Char, ¬ RATE_SUFFIX.data <:+: (p ++ RATE_SUFFIX.data.take 4) →
      rateBase (String.mk (p ++ RATE_SUFFIX.data)) = String.mk p) ∧
    rateBase "Water_rate_low_rate" = "Water_low" ∧
    (∀ (tr tc : String → ℚ) (sr sc : List String) r,
      r ∈ comp_rows tr tc sr sc → ∃ rate ∈ sr, r.subtype = rateBase rate) ∧
    (∀ (tr tc : String → ℚ) (sr sc : List String) row b,
      row ∈ build_group_summary tr tc sr sc → b ∈ row.deficit →
      ∃ rate ∈ sr, b = rateBase rate) := by
  have hsuf : RATE_SUFFIX.data = ['_', 'r', 'a', 't', 'e'] := rfl
  have htake : RATE_SUFFIX.data.take 4 = ['_', 'r', 'a', 't'] := rfl
  refine ⟨?_, by decide, ?_, ?_⟩
  · intro p hinf
    rw [htake] at hinf
    rw [hsuf, rateBase]
    exact congrArg String.mk (stripRateAux_strips_suffix p hinf)
  · intro tr tc sr sc r hr
    rcases List.mem_map.mp hr with ⟨rate, hrate, hst⟩
    exact ⟨rate, hrate, by rw [← hst]⟩
  · intro tr tc sr sc row b hrow hb
    obtain ⟨g, rfl⟩ := mem_build_summary hrow
    rw [mkGroupRow_deficit] at hb
    by_cases hS : ((sc.filter (fun c => groupName c == g)).map tc).sum
        - ((sr.filter (fun c => groupName c == g)).map tr).sum < 0
    · rw [if_pos hS] at hb
      rcases List.mem_filterMap.mp hb with ⟨rate, hrmem, hf⟩
      rcases List.mem_filter.mp hrmem with ⟨hrs, -⟩
      by_cases hlt : ((sc.filter (fun c => strStarts c (rateBase rate))).map
          tc).sum < tr rate
      · rw [if_pos hlt] at hf
        injection hf with hf
        exact ⟨rate, hrs, hf.symm⟩
      · rw [if_neg hlt] at hf
        exact absurd hf (by simp)
    · rw [if_neg hS] at hb
      exact absurd hb (List.not_mem_nil b)

/-- C10 witness: for the well-formed column `CL_III_rate` the replace-all
computation coincides with stripping the `_rate` suffix. -/
theorem c10_rate_base_replace_all_witness :
    rateBase (String.mk ("CL_III".data ++ RATE_SUFFIX.data)) = "CL_III" :=
  c10_rate_base_replace_all.1 "CL_III".data (by decide)

end RateMate
